import Mathlib

/-!
Verification of the incremental ARC-merge bookkeeping implemented by the
Mod Organizer 2 plugins for Dragon's Dogma: Dark Arisen, principally
`plugins/arctool_integration/arctool_merge_integration.py` (the current
variant; the legacy `plugins/ARCMerge.py` differs in a few spots noted
inline).  The embedding models:

* the scanner (`ScanThreadWorker.run`) that walks active mods and builds
  `arc_folders_current_build_dict` (here: `scanRun`),
* the merge planner (`ARCMerge.merge_arc_files`) that diffs the current
  map against the previous one (here: `rebuildSet`),
* the per-key merge job (`MergeThreadWorker.run`), both its file-overlay
  semantics (`mergeJobFiles`) and its action trace (`mergeJobActions`),
* the finalizer (`ARCMerge.mod_cleanup`) that deletes stale outputs and
  persists the map (here: `modCleanup`, `cleanupWorkerActions`),
* the cache-file persistence behaviour (`loadPreviousMap`,
  `writeCacheResult`).
-/

namespace ARCMergeSpec

/-- Python's `needle in haystack` substring test, specialised to the way the
plugin uses it (`"Merged ARC" not in mod_name`): does `n` occur at the head
of `h`? -/
def strStarts : List Char → List Char → Bool
  | [], _ => true
  | _ :: _, [] => false
  | a :: as, b :: bs => a == b && strStarts as bs

/-- Does the character list `n` occur contiguously anywhere inside `h`? -/
def hasSubList (n : List Char) : List Char → Bool
  | [] => n.isEmpty
  | c :: rest => strStarts n (c :: rest) || hasSubList n rest

/-- Python's substring containment `needle in haystack` on strings. -/
def strContains (needle haystack : String) : Bool :=
  hasSubList needle.toList haystack.toList

abbrev ModName := String
abbrev ArchiveKey := String

/-- `arc_folders_current_build_dict` / `arc_folders_previous_build_dict`:
a Python `dict` mapping an archive's relative path to the ordered list of
contributing mod names.  Python dicts preserve insertion order, so the
embedding is an association list in insertion order. -/
abbrev MergeMap := List (ArchiveKey × List ModName)

/-- Python `d.get(k)` / `k in d` combined: first binding of `k`, if any. -/
def lookupMap : MergeMap → ArchiveKey → Option (List ModName)
  | [], _ => none
  | (k2, v) :: rest, k => if k2 = k then some v else lookupMap rest k

/-- The key sequence of a map (Python `dict` iteration order). -/
def mapKeys (m : MergeMap) : List ArchiveKey := m.map Prod.fst

/-- A well-formed Python dict never holds the same key twice. -/
def NodupKeys (m : MergeMap) : Prop := (mapKeys m).Nodup

/-- One mod as the scanner sees it on disk: its name, its active state
(`modlist.state(mod_name) & mobase.ModState.ACTIVE`), the relative paths of
the folders produced by `os.walk` over the mod directory, and the relative
paths of the files inside the mod (used for the `relative_path + ".arc.txt"`
check). -/
structure ModFs where
  name : ModName
  active : Bool
  folders : List ArchiveKey
  files : List String

/-- `ScanThreadWorker.run` lines 369-370: `defaultdict(list)` access of
`current[relative_path]` followed by
`if mod_name not in ... : ....append(mod_name)`.  A missing key is created
at the end of the dict with an empty list and the name appended; a present
key has the name appended only when not already listed. -/
def insertContrib : MergeMap → ArchiveKey → ModName → MergeMap
  | [], k, n => [(k, [n])]
  | (k2, v) :: rest, k, n =>
    if k2 = k then (k2, if n ∈ v then v else v ++ [n]) :: rest
    else (k2, v) :: insertContrib rest k n

/-- `ScanThreadWorker.run` lines 362-370, per walked folder: the key is
recorded iff the base game has `relative_path + ".arc"` or the mod itself
holds `relative_path + ".arc.txt"` (the "fix for gog to steam merge"). -/
def scanFolder (gameFiles : List String) (mod : ModFs) (acc : MergeMap)
    (k : ArchiveKey) : MergeMap :=
  if (k ++ ".arc") ∈ gameFiles ∨ (k ++ ".arc.txt") ∈ mod.files then
    insertContrib acc k mod.name
  else acc

/-- `ScanThreadWorker.run` lines 357-370, per mod of the active list: the
mod is walked only when still active and its name does not contain
`"Merged ARC"`. -/
def scanMod (gameFiles : List String) (acc : MergeMap) (mod : ModFs) :
    MergeMap :=
  if mod.active && !(strContains "Merged ARC" mod.name) then
    mod.folders.foldl (scanFolder gameFiles mod) acc
  else acc

/-- `ARCMerge.__process_mods` lines 174-179: the active-mod list keeps, in
profile priority order, the mods that are active and whose name does not
contain `"Merged ARC"`. -/
def buildActiveList (mods : List ModFs) : List ModFs :=
  mods.filter fun m => m.active && !(strContains "Merged ARC" m.name)

/-- The whole scan phase: start from the cleared dict and fold the scanner
over the active-mod list (which is in priority order). -/
def scanRun (gameFiles : List String) (mods : List ModFs) : MergeMap :=
  (buildActiveList mods).foldl (scanMod gameFiles) []

/-- `ARCMerge.merge_arc_files` lines 198-206: iterate the current dict and
schedule a merge job for `entry` iff `entry not in previous` or
`current[entry] != previous[entry]` (order-sensitive list equality). -/
def rebuildSet (current previous : MergeMap) : List ArchiveKey :=
  current.filterMap fun p =>
    match lookupMap previous p.1 with
    | none => some p.1
    | some v => if p.2 = v then none else some p.1

/-! ### Association-list lemmas -/

theorem mapKeys_cons (p : ArchiveKey × List ModName)
    (rest : MergeMap) : mapKeys (p :: rest) = p.1 :: mapKeys rest := rfl

theorem insertContrib_nil (k : ArchiveKey) (n : ModName) :
    insertContrib [] k n = [(k, [n])] := rfl

theorem insertContrib_cons_eq (k : ArchiveKey) (w : List ModName)
    (rest : MergeMap) (n : ModName) :
    insertContrib ((k, w) :: rest) k n
      = (k, if n ∈ w then w else w ++ [n]) :: rest := by
  simp [insertContrib]

theorem insertContrib_cons_ne {k2 k : ArchiveKey} (h : k2 ≠ k)
    (w : List ModName) (rest : MergeMap) (n : ModName) :
    insertContrib ((k2, w) :: rest) k n
      = (k2, w) :: insertContrib rest k n := by
  simp [insertContrib, h]

theorem lookupMap_mem {m : MergeMap} {k : ArchiveKey} {v : List ModName}
    (h : lookupMap m k = some v) : (k, v) ∈ m := by
  induction m with
  | nil => simp [lookupMap] at h
  | cons p rest ih =>
    obtain ⟨k2, w⟩ := p
    by_cases hk : k2 = k
    · subst hk
      simp [lookupMap] at h
      subst h
      exact List.mem_cons_self _ _
    · simp [lookupMap, hk] at h
      exact List.mem_cons_of_mem _ (ih h)

theorem mem_lookupMap {m : MergeMap} (hm : NodupKeys m) {k : ArchiveKey}
    {v : List ModName} (h : (k, v) ∈ m) : lookupMap m k = some v := by
  induction m with
  | nil => simp at h
  | cons p rest ih =>
    obtain ⟨k2, w⟩ := p
    rcases List.mem_cons.1 h with h1 | h1
    · obtain ⟨rfl, rfl⟩ := Prod.mk.injEq .. ▸ h1
      simp [lookupMap]
    · have hk : k2 ≠ k := by
        rintro rfl
        have : k2 ∈ mapKeys rest := List.mem_map_of_mem Prod.fst h1
        exact (List.nodup_cons.1 hm).1 this
      have hm2 : NodupKeys rest := (List.nodup_cons.1 hm).2
      simpa [lookupMap, hk] using ih hm2 h1

theorem insertContrib_cases {m : MergeMap} {k : ArchiveKey} {n : ModName}
    {p : ArchiveKey × List ModName} (h : p ∈ insertContrib m k n) :
    p ∈ m ∨ (p = (k, [n])) ∨
      ∃ v, (k, v) ∈ m ∧ n ∉ v ∧ p = (k, v ++ [n]) := by
  induction m with
  | nil =>
    simp [insertContrib] at h
    exact Or.inr (Or.inl (by simp [h]))
  | cons q rest ih =>
    obtain ⟨k2, w⟩ := q
    by_cases hk : k2 = k
    · subst hk
      simp only [insertContrib, if_pos rfl] at h
      rcases List.mem_cons.1 h with h1 | h1
      · by_cases hn : n ∈ w
        · rw [if_pos hn] at h1
          exact Or.inl (h1 ▸ List.mem_cons_self _ _)
        · rw [if_neg hn] at h1
          exact Or.inr (Or.inr ⟨w, List.mem_cons_self _ _, hn, h1⟩)
      · exact Or.inl (List.mem_cons_of_mem _ h1)
    · simp only [insertContrib, if_neg hk] at h
      rcases List.mem_cons.1 h with h1 | h1
      · exact Or.inl (h1 ▸ List.mem_cons_self _ _)
      · rcases ih h1 with h2 | h2 | ⟨v, hv, hnv, hp⟩
        · exact Or.inl (List.mem_cons_of_mem _ h2)
        · exact Or.inr (Or.inl h2)
        · exact Or.inr (Or.inr ⟨v, List.mem_cons_of_mem _ hv, hnv, hp⟩)

theorem insertContrib_keys (m : MergeMap) (k : ArchiveKey) (n : ModName) :
    (k ∈ mapKeys m ∧ mapKeys (insertContrib m k n) = mapKeys m) ∨
      (k ∉ mapKeys m ∧ mapKeys (insertContrib m k n) = mapKeys m ++ [k]) := by
  induction m with
  | nil => simp [insertContrib_nil, mapKeys]
  | cons q rest ih =>
    obtain ⟨k2, w⟩ := q
    by_cases hk : k2 = k
    · subst hk
      refine Or.inl ⟨?_, ?_⟩
      · rw [mapKeys_cons]
        exact List.mem_cons_self _ _
      · rw [insertContrib_cons_eq, mapKeys_cons, mapKeys_cons]
    · rcases ih with ⟨h1, h2⟩ | ⟨h1, h2⟩
      · refine Or.inl ⟨?_, ?_⟩
        · rw [mapKeys_cons]
          exact List.mem_cons_of_mem _ h1
        · rw [insertContrib_cons_ne hk, mapKeys_cons, mapKeys_cons, h2]
      · refine Or.inr ⟨?_, ?_⟩
        · rw [mapKeys_cons, List.mem_cons]
          rintro (h3 | h3)
          · exact hk h3.symm
          · exact h1 h3
        · rw [insertContrib_cons_ne hk, mapKeys_cons, mapKeys_cons, h2]
          rfl

theorem nodupKeys_insertContrib {m : MergeMap} (hm : NodupKeys m)
    (k : ArchiveKey) (n : ModName) : NodupKeys (insertContrib m k n) := by
  rcases insertContrib_keys m k n with ⟨_, h2⟩ | ⟨h1, h2⟩
  · unfold NodupKeys
    rw [h2]
    exact hm
  · unfold NodupKeys at hm ⊢
    rw [h2]
    simp [List.nodup_append, hm, h1]

/-- `foldl` preserves an invariant when every step does, tracking membership
of the step element in the folded list. -/
theorem foldl_inv {α β : Type} {P : β → Prop} (f : β → α → β) :
    ∀ (l : List α), (∀ b a, a ∈ l → P b → P (f b a)) →
      ∀ b, P b → P (l.foldl f b) := by
  intro l
  induction l with
  | nil => intro _ b hb; exact hb
  | cons a t ih =>
    intro step b hb
    exact ih (fun b' a' ha' hb' => step b' a' (List.mem_cons_of_mem _ ha') hb')
      _ (step b a (List.mem_cons_self _ _) hb)

theorem insertContrib_keys_mem {m : MergeMap} {k : ArchiveKey} {n : ModName}
    {p : ArchiveKey × List ModName} (h : p ∈ insertContrib m k n) :
    p.1 = k ∨ p ∈ m := by
  rcases insertContrib_cases h with h1 | h1 | ⟨v, _, _, h1⟩
  · exact Or.inr h1
  · exact Or.inl (by rw [h1])
  · exact Or.inl (by rw [h1])

/-! ### Scanner invariants -/

theorem nodupKeys_scanFolder {g : List String} {mod : ModFs} {acc : MergeMap}
    (h : NodupKeys acc) (k : ArchiveKey) :
    NodupKeys (scanFolder g mod acc k) := by
  unfold scanFolder
  split
  · exact nodupKeys_insertContrib h _ _
  · exact h

theorem nodupKeys_scanMod {g : List String} {acc : MergeMap}
    (h : NodupKeys acc) (mod : ModFs) : NodupKeys (scanMod g acc mod) := by
  unfold scanMod
  split
  · exact foldl_inv (P := NodupKeys) _ _
      (fun b a _ hb => nodupKeys_scanFolder hb a) _ h
  · exact h

/-- The scanner never records the same archive key twice: the current build
dict is a genuine dict. -/
theorem scanRun_nodupKeys (g : List String) (mods : List ModFs) :
    NodupKeys (scanRun g mods) := by
  unfold scanRun
  exact foldl_inv (P := NodupKeys) _ _
    (fun b a _ hb => nodupKeys_scanMod hb a) _ (by simp [NodupKeys, mapKeys])

theorem valuesNodup_insertContrib {m : MergeMap}
    (h : ∀ p ∈ m, List.Nodup p.2) (k : ArchiveKey) (n : ModName) :
    ∀ p ∈ insertContrib m k n, List.Nodup p.2 := by
  intro p hp
  rcases insertContrib_cases hp with h1 | h1 | ⟨v, hv, hnv, h1⟩
  · exact h p h1
  · rw [h1]
    simp
  · rw [h1]
    have hvn := h (k, v) hv
    simp only at hvn
    simp [List.nodup_append, hvn, hnv]

theorem valuesNodup_scanFolder {g : List String} {mod : ModFs}
    {acc : MergeMap} (h : ∀ p ∈ acc, List.Nodup p.2) (k : ArchiveKey) :
    ∀ p ∈ scanFolder g mod acc k, List.Nodup p.2 := by
  unfold scanFolder
  split
  · exact valuesNodup_insertContrib h _ _
  · exact h

theorem valuesNodup_scanMod {g : List String} {acc : MergeMap}
    (h : ∀ p ∈ acc, List.Nodup p.2) (mod : ModFs) :
    ∀ p ∈ scanMod g acc mod, List.Nodup p.2 := by
  unfold scanMod
  split
  · exact foldl_inv (P := fun (m : MergeMap) => ∀ p ∈ m, List.Nodup p.2) _ _
      (fun b a _ hb => valuesNodup_scanFolder hb a) _ h
  · exact h

/-- Every contributor list built by the scanner is duplicate-free. -/
theorem scanRun_valuesNodup (g : List String) (mods : List ModFs) :
    ∀ p ∈ scanRun g mods, List.Nodup p.2 := by
  unfold scanRun
  exact foldl_inv (P := fun (m : MergeMap) => ∀ p ∈ m, List.Nodup p.2) _ _
    (fun b a _ hb => valuesNodup_scanMod hb a) _ (by simp)

theorem contribProp_insertContrib {Q : ModName → Prop} {m : MergeMap}
    (h : ∀ p ∈ m, ∀ x ∈ p.2, Q x) (k : ArchiveKey) {n : ModName}
    (hn : Q n) : ∀ p ∈ insertContrib m k n, ∀ x ∈ p.2, Q x := by
  intro p hp
  rcases insertContrib_cases hp with h1 | h1 | ⟨v, hv, _, h1⟩
  · exact h p h1
  · rw [h1]
    intro x hx
    simp only [List.mem_singleton] at hx
    rw [hx]
    exact hn
  · rw [h1]
    intro x hx
    simp only [List.mem_append, List.mem_singleton] at hx
    rcases hx with hx | hx
    · exact h (k, v) hv x hx
    · rw [hx]
      exact hn

/-- Every contributor name the scanner ever records passed the
`"Merged ARC" not in mod_name` filter at lines 357-358. -/
theorem scanRun_merged_excluded (g : List String) (mods : List ModFs) :
    ∀ p ∈ scanRun g mods, ∀ x ∈ p.2,
      strContains "Merged ARC" x = false := by
  unfold scanRun
  refine foldl_inv
    (P := fun (m : MergeMap) => ∀ p ∈ m, ∀ x ∈ p.2, strContains "Merged ARC" x = false)
    _ _ ?_ _ (by simp)
  intro b mod _ hb
  unfold scanMod
  by_cases hc : (mod.active && !(strContains "Merged ARC" mod.name)) = true
  · rw [if_pos hc]
    have hname : strContains "Merged ARC" mod.name = false := by
      have h2 : mod.active = true ∧
          (!(strContains "Merged ARC" mod.name)) = true := by
        simpa [Bool.and_eq_true] using hc
      simpa using h2.2
    refine foldl_inv
      (P := fun (m : MergeMap) => ∀ p ∈ m, ∀ x ∈ p.2, strContains "Merged ARC" x = false)
      _ _ ?_ _ hb
    intro b2 k _ hb2
    unfold scanFolder
    split
    · exact contribProp_insertContrib hb2 k hname
    · exact hb2
  · rw [if_neg hc]
    exact hb

/-- Every archive key the scanner ever records satisfied the disjunctive
existence check of line 366 for one of the mods actually walked, i.e. a
member of the filtered active-mod list (active and not `"Merged ARC"`). -/
theorem scanRun_good_keys (g : List String) (mods : List ModFs) :
    ∀ p ∈ scanRun g mods,
      (p.1 ++ ".arc") ∈ g ∨
        ∃ mo, mo ∈ buildActiveList mods
          ∧ (p.1 ++ ".arc.txt") ∈ mo.files := by
  unfold scanRun
  refine foldl_inv
    (P := fun (m : MergeMap) => ∀ p ∈ m, (p.1 ++ ".arc") ∈ g ∨
      ∃ mo, mo ∈ buildActiveList mods ∧ (p.1 ++ ".arc.txt") ∈ mo.files)
    _ _ ?_ _ (by simp)
  intro b mod hmod hb
  unfold scanMod
  split
  · refine foldl_inv
      (P := fun (m : MergeMap) => ∀ p ∈ m, (p.1 ++ ".arc") ∈ g ∨
        ∃ mo, mo ∈ buildActiveList mods ∧ (p.1 ++ ".arc.txt") ∈ mo.files)
      _ _ ?_ _ hb
    intro b2 k _ hb2
    unfold scanFolder
    by_cases hcond :
        (k ++ ".arc") ∈ g ∨ (k ++ ".arc.txt") ∈ mod.files
    · rw [if_pos hcond]
      intro p hp
      rcases insertContrib_keys_mem hp with h1 | h1
      · rcases hcond with h2 | h2
        · exact Or.inl (h1 ▸ h2)
        · exact Or.inr ⟨mod, hmod, h1 ▸ h2⟩
      · exact hb2 p h1
    · rw [if_neg hcond]
      exact hb2
  · exact hb

/-! ### Planner lemmas -/

theorem mem_rebuildSet {cur prev : MergeMap} (hnd : NodupKeys cur)
    {k : ArchiveKey} {v : List ModName} (hv : lookupMap cur k = some v) :
    k ∈ rebuildSet cur prev ↔ lookupMap prev k ≠ some v := by
  unfold rebuildSet
  rw [List.mem_filterMap]
  constructor
  · rintro ⟨p, hp, hfp⟩
    have hPk : p.1 = k ∧ lookupMap prev p.1 ≠ some p.2 := by
      rcases hlp : lookupMap prev p.1 with _ | w
      · rw [hlp] at hfp
        refine ⟨by simpa using hfp, by simp⟩
      · rw [hlp] at hfp
        by_cases he : p.2 = w
        · simp [he] at hfp
        · simp only [if_neg he] at hfp
          refine ⟨by simpa using hfp, ?_⟩
          intro hcontra
          exact he (Option.some.inj hcontra).symm
    obtain ⟨hk1, hk2⟩ := hPk
    have hpcur : (k, p.2) ∈ cur := by
      rw [← hk1, Prod.mk.eta]
      exact hp
    have hlcur : lookupMap cur k = some p.2 := mem_lookupMap hnd hpcur
    have hv2 : p.2 = v := Option.some.inj (hlcur.symm.trans hv)
    rw [hk1, hv2] at hk2
    exact hk2
  · intro hne
    refine ⟨(k, v), lookupMap_mem hv, ?_⟩
    rcases hlp : lookupMap prev k with _ | w
    · simp [hlp]
    · have he : v ≠ w := fun hh => hne (by rw [hlp, hh])
      simp [hlp, he]

/-- Diffing a well-formed map against itself schedules nothing. -/
theorem rebuildSet_self {m : MergeMap} (hnd : NodupKeys m) :
    rebuildSet m m = [] := by
  rw [List.eq_nil_iff_forall_not_mem]
  intro k hk
  unfold rebuildSet at hk
  rw [List.mem_filterMap] at hk
  obtain ⟨p, hp, hfp⟩ := hk
  have hpm : (p.1, p.2) ∈ m := by
    rw [Prod.mk.eta]
    exact hp
  have hl : lookupMap m p.1 = some p.2 := mem_lookupMap hnd hpm
  rw [hl] at hfp
  simp at hfp

/-! ### Merge job (`MergeThreadWorker.run`) -/

/-- A directory tree as a partial map from relative file path to file
content. -/
abbrev Dir := String → Option String

/-- `shutil.copytree(src, dst, dirs_exist_ok=True)` seen through file
contents: a file of the copied tree replaces the destination file of the
same relative path; destination files it does not supply survive. -/
def overlayDir (base ov : Dir) : Dir := fun p =>
  match ov p with
  | some c => some c
  | none => base p

/-- `MergeThreadWorker.run` lines 437-444, content view: starting from the
extracted vanilla baseline, each contributing mod directory is copied over
the output folder in contributor-list order, so later (higher-priority)
mods overwrite earlier ones. -/
def mergeJobFiles (baseline : Dir) (modDir : ModName → Dir)
    (contribs : List ModName) : Dir :=
  contribs.foldl (fun acc m => overlayDir acc (modDir m)) baseline

/-- The observable filesystem/process steps of one merge job, in program
order. -/
inductive MergeAction where
  | extractVanilla : ArchiveKey → MergeAction
  | copyModFolder : ModName → MergeAction
  | copyArcTxt : ModName → MergeAction
  | compress : ArchiveKey → MergeAction
  | removeTemp : ArchiveKey → MergeAction
deriving DecidableEq

/-- The branch-relevant state a merge job observes when it starts:
`ARCMerge.threadCancel`, whether the output mod already holds an extracted
baseline folder for the key (`os.path.isdir(extracted_arc_folder)`),
whether the base game holds the `.arc`
(`os.path.isfile(os.path.join(game_directory, key + ".arc"))`), and which
contributing mods hold the override folder resp. the `.arc.txt` file. -/
structure MergeJobEnv where
  cancelFlag : Bool
  baselineExtracted : Bool
  gameHasArc : Bool
  modsWithFolder : List ModName
  modsWithArcTxt : List ModName
deriving DecidableEq

/-- `MergeThreadWorker.run` lines 409-460 as a step trace.  The only early
return is the cancellation check at the top; a missing baseline (no
extracted folder and no vanilla `.arc` in the game data) merely skips the
extraction block, after which the mod-copy loop, the compress call and the
temp removal all still run. -/
def mergeJobActions (env : MergeJobEnv) (contribs : List ModName)
    (key : ArchiveKey) : List MergeAction :=
  if env.cancelFlag then []
  else
    (if !env.baselineExtracted && env.gameHasArc then
      [MergeAction.extractVanilla key]
    else [])
    ++ (contribs.flatMap fun m =>
      (if m ∈ env.modsWithFolder then [MergeAction.copyModFolder m] else [])
        ++ (if m ∈ env.modsWithArcTxt then [MergeAction.copyArcTxt m]
          else []))
    ++ [MergeAction.compress key, MergeAction.removeTemp key]

/-- A cancelled job returns before `self.signals.finished.emit()`; only a
job that runs to the end emits `finished`. -/
def mergeJobEmitsFinished (env : MergeJobEnv) : Bool := !env.cancelFlag

/-- `ARCMerge.merge_thread_worker_complete` counts `finished` signals in
`self.current_index`. -/
def countFinished (envs : List MergeJobEnv) : Nat :=
  (envs.filter fun e => mergeJobEmitsFinished e).length

/-- `ARCMerge.mod_cleanup` (which rewrites `arcFileMerge.json`) is reached
either directly from `merge_arc_files` when zero jobs were scheduled, or
from `merge_thread_worker_complete` when the finished count reaches the
scheduled count. -/
def cacheWriteTriggered (scheduled finished : Nat) : Bool :=
  scheduled == 0 || finished == scheduled

/-! ### Finalizer (`ARCMerge.mod_cleanup`, `CleanupThreadWorker.run`) -/

/-- The deletions `CleanupThreadWorker.run` performs for one stale key, in
program order: unlink `key + ".arc.txt"`, unlink `key + ".arc"`, remove the
leftover extracted folder `key` under the merged-output mod. -/
inductive CleanupAction where
  | deleteArcTxt : ArchiveKey → CleanupAction
  | deleteArc : ArchiveKey → CleanupAction
  | deleteFolder : ArchiveKey → CleanupAction
deriving DecidableEq

def cleanupWorkerActions (k : ArchiveKey) : List CleanupAction :=
  [CleanupAction.deleteArcTxt k, CleanupAction.deleteArc k,
    CleanupAction.deleteFolder k]

/-- `ARCMerge.mod_cleanup` lines 226-244: walk the previous map and launch a
cleanup worker for every key absent from the current map, then dump the
current map to `arcFileMerge.json`.  The cancellation check sits at the top
of the loop body, so with the dialog cancelled and a nonempty previous map
the function returns before any deletion and before the dump.  Result:
(keys handed to cleanup workers, map written to the cache file if any). -/
def modCleanup (previous current : MergeMap) (canceled : Bool) :
    List ArchiveKey × Option MergeMap :=
  if canceled ∧ previous ≠ [] then ([], none)
  else
    ((previous.filter fun p => (lookupMap current p.1).isNone).map Prod.fst,
      some current)

/-! ### Cache-file persistence -/

/-- The states `arcFileMerge.json` can be in at run start. -/
inductive CacheFileState where
  | missing : CacheFileState
  | ioErr : CacheFileState
  | invalidJson : CacheFileState
  | valid : MergeMap → CacheFileState

/-- `ScanThreadWorker.run` lines 339-346: a missing file fails the
`os.path.isfile` guard and the dict stays at its cleared (empty) state; an
`IOError` from `open`/read is caught and logged, leaving the dict empty; but
a present, readable file holding invalid JSON makes `json.load` raise
`json.decoder.JSONDecodeError` (a `ValueError`), which `except IOError`
does not catch, so the exception escapes the worker. -/
def loadPreviousMap : CacheFileState → Except String MergeMap
  | CacheFileState.missing => Except.ok []
  | CacheFileState.ioErr => Except.ok []
  | CacheFileState.invalidJson => Except.error "json.decoder.JSONDecodeError"
  | CacheFileState.valid m => Except.ok m

/-- `ARCMerge.mod_cleanup` lines 239-244: the `json.dump` is wrapped in
`try/except IOError`, so a failing write is logged and the function runs on
to completion.  Result: (map actually written, whether the run completes
normally). -/
def writeCacheResult (ioFailure : Bool) (current : MergeMap) :
    Option MergeMap × Bool :=
  if ioFailure then (none, true) else (some current, true)

/-! ### Concrete fixtures used by counterexamples and witnesses -/

/-- A mod carrying an extracted folder `rom/foo` and the order file
`rom/foo.arc.txt`, but for which the base game has no `rom/foo.arc`
(the GOG-to-Steam situation the scanner's disjunctive check is aimed at). -/
def gogMod : ModFs :=
  ModFs.mk "ModA" true ["rom/foo"] ["rom/foo.arc.txt"]

/-- A one-folder mod named `ModA` for witness instantiations. -/
def plainModA : ModFs := ModFs.mk "ModA" true ["a"] []

/-- A second one-folder mod named `ModB` over the same key. -/
def plainModB : ModFs := ModFs.mk "ModB" true ["a"] []

/-! ### The claims -/

/-- C1: the merge planner schedules a rebuild job for exactly those keys
`k` of the freshly scanned current map that are absent from the previous
map or whose contributor sequence differs from the previous one under
order-sensitive list equality (`lookupMap prev k ≠ some v` covers both the
`entry not in previous` case, where the lookup is `none`, and the
`current[entry] != previous[entry]` case); every key whose contributor
list is identical in both maps is excluded from the rebuild set. -/
theorem c1_rebuild_iff (g : List String) (mods : List ModFs)
    (prev : MergeMap) (k : ArchiveKey) (v : List ModName)
    (hv : lookupMap (scanRun g mods) k = some v) :
    k ∈ rebuildSet (scanRun g mods) prev ↔ lookupMap prev k ≠ some v :=
  mem_rebuildSet (scanRun_nodupKeys g mods) hv

/-- C1 witness: a single mod overriding key `a` with an empty previous map
puts `a` in the rebuild set. -/
theorem c1_witness :
    lookupMap (scanRun ["a.arc"] [plainModA]) "a" = some ["ModA"]
    ∧ ("a" ∈ rebuildSet (scanRun ["a.arc"] [plainModA]) []
        ↔ lookupMap [] "a" ≠ some ["ModA"]) :=
  ⟨by decide, c1_rebuild_iff ["a.arc"] [plainModA] [] "a" ["ModA"] (by decide)⟩

/-- C2 counterexample: the claim says a key is inserted only when the
corresponding `.arc` exists in the base game data, but
`ScanThreadWorker.run` line 366 also accepts a folder whose mod carries
`relative_path + ".arc.txt"` (the GOG-to-Steam fix): with an empty game
directory, `gogMod` still gets key `rom/foo` recorded. -/
theorem c2_counterexample :
    lookupMap (scanRun [] [gogMod]) "rom/foo" = some ["ModA"]
    ∧ ("rom/foo" ++ ".arc") ∉ ([] : List String) :=
  ⟨by decide, by simp⟩

/-- C2 amended: every key the scanner inserts has its `.arc` in the base
game data, or some scanned mod — a member of the filtered active-mod list
that the scanner actually walks — carries the key's `.arc.txt` order
file. -/
theorem c2_amended_scan_keys (g : List String) (mods : List ModFs)
    (k : ArchiveKey) (v : List ModName)
    (hv : lookupMap (scanRun g mods) k = some v) :
    (k ++ ".arc") ∈ g ∨
      ∃ mo, mo ∈ buildActiveList mods ∧ (k ++ ".arc.txt") ∈ mo.files :=
  scanRun_good_keys g mods (k, v) (lookupMap_mem hv)

/-- C2 amended witness: at the GOG fixture the amended invariant holds via
the `.arc.txt` disjunct, with the walked mod itself as witness. -/
theorem c2_amended_witness :
    lookupMap (scanRun [] [gogMod]) "rom/foo" = some ["ModA"]
    ∧ (("rom/foo" ++ ".arc") ∈ ([] : List String)
        ∨ ∃ mo, mo ∈ buildActiveList [gogMod]
            ∧ ("rom/foo" ++ ".arc.txt") ∈ mo.files) :=
  ⟨by decide, c2_amended_scan_keys [] [gogMod] "rom/foo" ["ModA"] (by decide)⟩

/-- C3: with mods `A` (lower priority) and `B` (higher priority), both
active, both overriding key `K` that exists in the game data, the scan
records contributors `[A, B]` in priority order; the merge job folds the
override trees in that order, so a file present in both mods ends up with
`B`'s content; and swapping the priority order (membership unchanged)
yields the unequal contributor sequence `[B, A]`, which forces `K` into
the rebuild set. -/
theorem c3_order_sensitivity (g : List String) (K : ArchiveKey)
    (na nb : ModName) (fa fb : List String)
    (hna : strContains "Merged ARC" na = false)
    (hnb : strContains "Merged ARC" nb = false)
    (harc : (K ++ ".arc") ∈ g) (hne : na ≠ nb) :
    scanRun g [ModFs.mk na true [K] fa, ModFs.mk nb true [K] fb]
      = [(K, [na, nb])]
    ∧ (∀ (baseline : Dir) (modDir : ModName → Dir) (p ca cb : String),
        modDir na p = some ca → modDir nb p = some cb →
        mergeJobFiles baseline modDir [na, nb] p = some cb)
    ∧ scanRun g [ModFs.mk nb true [K] fb, ModFs.mk na true [K] fa]
      = [(K, [nb, na])]
    ∧ [na, nb] ≠ [nb, na]
    ∧ K ∈ rebuildSet
        (scanRun g [ModFs.mk nb true [K] fb, ModFs.mk na true [K] fa])
        (scanRun g [ModFs.mk na true [K] fa, ModFs.mk nb true [K] fb]) := by
  have hne2 : nb ≠ na := fun h => hne h.symm
  have hAB : scanRun g [ModFs.mk na true [K] fa, ModFs.mk nb true [K] fb]
      = [(K, [na, nb])] := by
    simp [scanRun, buildActiveList, scanMod, scanFolder, insertContrib,
      hna, hnb, harc, hne2]
  have hBA : scanRun g [ModFs.mk nb true [K] fb, ModFs.mk na true [K] fa]
      = [(K, [nb, na])] := by
    simp [scanRun, buildActiveList, scanMod, scanFolder, insertContrib,
      hna, hnb, harc, hne]
  have hlist : [na, nb] ≠ [nb, na] := by simp [hne]
  refine ⟨hAB, ?_, hBA, hlist, ?_⟩
  · intro baseline modDir p ca cb hca hcb
    simp [mergeJobFiles, overlayDir, hcb]
  · rw [hAB, hBA]
    have hlist2 : [nb, na] ≠ [na, nb] := fun h => hlist h.symm
    simp [rebuildSet, lookupMap, hlist2]

/-- C3 witness: the concrete two-mod fixture over key `a`. -/
theorem c3_witness :
    scanRun ["a.arc"] [ModFs.mk "ModA" true ["a"] [],
        ModFs.mk "ModB" true ["a"] []] = [("a", ["ModA", "ModB"])]
    ∧ (∀ (baseline : Dir) (modDir : ModName → Dir) (p ca cb : String),
        modDir "ModA" p = some ca → modDir "ModB" p = some cb →
        mergeJobFiles baseline modDir ["ModA", "ModB"] p = some cb)
    ∧ scanRun ["a.arc"] [ModFs.mk "ModB" true ["a"] [],
        ModFs.mk "ModA" true ["a"] []] = [("a", ["ModB", "ModA"])]
    ∧ ["ModA", "ModB"] ≠ ["ModB", "ModA"]
    ∧ "a" ∈ rebuildSet
        (scanRun ["a.arc"] [ModFs.mk "ModB" true ["a"] [],
          ModFs.mk "ModA" true ["a"] []])
        (scanRun ["a.arc"] [ModFs.mk "ModA" true ["a"] [],
          ModFs.mk "ModB" true ["a"] []]) :=
  c3_order_sensitivity ["a.arc"] "a" "ModA" "ModB" [] []
    (by decide) (by decide) (by decide) (by decide)

/-- C4: the scanner is a pure function of the mod list and the filesystem,
so a second run with nothing changed produces the same map that the first
run persisted, and diffing that map against itself schedules zero merge
jobs: the rebuild set is empty. -/
theorem c4_idempotence (g : List String) (mods : List ModFs) :
    rebuildSet (scanRun g mods) (scanRun g mods) = [] :=
  rebuildSet_self (scanRun_nodupKeys g mods)

/-- C5: a key present in the previous map and absent from the current map
is handed to a cleanup worker by the finalizer (with the dialog not
cancelled), that worker deletes the key's `.arc.txt`, `.arc` and leftover
extracted folder, and the map written to `arcFileMerge.json` at the end of
the run does not contain the key. -/
theorem c5_stale_cleanup (prev current : MergeMap) (k : ArchiveKey)
    (v : List ModName) (hk : lookupMap prev k = some v)
    (hcur : lookupMap current k = none) :
    k ∈ (modCleanup prev current false).1
    ∧ (∀ a ∈ cleanupWorkerActions k,
        a ∈ (modCleanup prev current false).1.flatMap cleanupWorkerActions)
    ∧ ∃ w, (modCleanup prev current false).2 = some w
        ∧ lookupMap w k = none := by
  have hmem : (k, v) ∈ prev := lookupMap_mem hk
  have hkdel :
      k ∈ (prev.filter fun p => (lookupMap current p.1).isNone).map
        Prod.fst := by
    refine List.mem_map.2 ⟨(k, v), ?_, rfl⟩
    refine List.mem_filter.2 ⟨hmem, ?_⟩
    simp [hcur]
  unfold modCleanup
  rw [if_neg (by simp)]
  exact ⟨hkdel, fun a ha => List.mem_flatMap.2 ⟨k, hkdel, ha⟩,
    current, rfl, hcur⟩

/-- C5 witness: previous map `a ↦ [M]`, empty current map. -/
theorem c5_witness :
    "a" ∈ (modCleanup [("a", ["M"])] [] false).1
    ∧ (∀ a ∈ cleanupWorkerActions "a",
        a ∈ (modCleanup [("a", ["M"])] [] false).1.flatMap
          cleanupWorkerActions)
    ∧ ∃ w, (modCleanup [("a", ["M"])] [] false).2 = some w
        ∧ lookupMap w "a" = none :=
  c5_stale_cleanup [("a", ["M"])] [] "a" ["M"] (by decide) (by decide)

/-- C6 counterexample: the claim says a merge job finding no extracted
baseline folder and no matching `.arc` in the game data stops early,
leaving previous merged output untouched; but `MergeThreadWorker.run` has
no such early return — at a concrete such state the job still performs the
mod copy, the compress call on the output key and the temp removal (which
rewrite the key's merged output). -/
theorem c6_counterexample :
    mergeJobActions (MergeJobEnv.mk false false false ["ModA"] [])
        ["ModA"] "rom/x"
      = [MergeAction.copyModFolder "ModA", MergeAction.compress "rom/x",
          MergeAction.removeTemp "rom/x"]
    ∧ MergeAction.compress "rom/x"
        ∈ mergeJobActions (MergeJobEnv.mk false false false ["ModA"] [])
          ["ModA"] "rom/x" := by
  refine ⟨by decide, by decide⟩

theorem extract_not_in_modCopies (env : MergeJobEnv)
    (contribs : List ModName) (k2 : ArchiveKey) :
    MergeAction.extractVanilla k2 ∉ contribs.flatMap (fun m =>
      (if m ∈ env.modsWithFolder then [MergeAction.copyModFolder m] else [])
        ++ (if m ∈ env.modsWithArcTxt then [MergeAction.copyArcTxt m]
          else [])) := by
  intro h
  rw [List.mem_flatMap] at h
  obtain ⟨m, _, hm⟩ := h
  rw [List.mem_append] at hm
  rcases hm with hm | hm
  · split at hm
    · simp at hm
    · simp at hm
  · split at hm
    · simp at hm
    · simp at hm

/-- C6 amended: when the job is not cancelled, the extracted baseline
folder is missing and the game data has no matching `.arc`, the job skips
only the vanilla-extraction step; it still runs the mod-copy loop, the
compress call and the temp removal for its own key.  (Jobs remain
independent: a job's trace is a function of its own inputs only.) -/
theorem c6_amended (env : MergeJobEnv) (contribs : List ModName)
    (key : ArchiveKey) (hc : env.cancelFlag = false)
    (_hb : env.baselineExtracted = false) (hg : env.gameHasArc = false) :
    (∀ k2, MergeAction.extractVanilla k2 ∉ mergeJobActions env contribs key)
    ∧ MergeAction.compress key ∈ mergeJobActions env contribs key
    ∧ MergeAction.removeTemp key ∈ mergeJobActions env contribs key := by
  have htrace : mergeJobActions env contribs key =
      contribs.flatMap (fun m =>
        (if m ∈ env.modsWithFolder then [MergeAction.copyModFolder m]
          else [])
          ++ (if m ∈ env.modsWithArcTxt then [MergeAction.copyArcTxt m]
            else []))
        ++ [MergeAction.compress key, MergeAction.removeTemp key] := by
    unfold mergeJobActions
    rw [hc, hg]
    simp
  refine ⟨?_, ?_, ?_⟩
  · intro k2 hmem
    rw [htrace, List.mem_append] at hmem
    rcases hmem with hmem | hmem
    · exact extract_not_in_modCopies env contribs k2 hmem
    · simp at hmem
  · rw [htrace]
    simp
  · rw [htrace]
    simp

/-- C6 amended witness: the concrete missing-baseline state. -/
theorem c6_amended_witness :
    (∀ k2, MergeAction.extractVanilla k2
        ∉ mergeJobActions (MergeJobEnv.mk false false false ["ModA"] [])
          ["ModA"] "rom/x")
    ∧ MergeAction.compress "rom/x"
        ∈ mergeJobActions (MergeJobEnv.mk false false false ["ModA"] [])
          ["ModA"] "rom/x"
    ∧ MergeAction.removeTemp "rom/x"
        ∈ mergeJobActions (MergeJobEnv.mk false false false ["ModA"] [])
          ["ModA"] "rom/x" :=
  c6_amended (MergeJobEnv.mk false false false ["ModA"] []) ["ModA"]
    "rom/x" rfl rfl rfl

/-- C7: if the cancellation flag is set before any of the scheduled merge
jobs starts executing, every job returns at its opening check — no
extract/copy/compress action is performed — and, because the early return
skips `finished.emit`, the finished count stays at zero and never reaches
the scheduled count, so `mod_cleanup` (the only writer of
`arcFileMerge.json`) is never triggered. -/
theorem c7_cancellation (envs : List MergeJobEnv)
    (hall : ∀ e ∈ envs, e.cancelFlag = true) (hne : envs ≠ []) :
    (∀ e ∈ envs, ∀ contribs key, mergeJobActions e contribs key = [])
    ∧ countFinished envs = 0
    ∧ cacheWriteTriggered envs.length (countFinished envs) = false := by
  have hacts :
      ∀ e ∈ envs, ∀ contribs key, mergeJobActions e contribs key = [] := by
    intro e he contribs key
    unfold mergeJobActions
    rw [hall e he]
    simp
  have hcount : countFinished envs = 0 := by
    unfold countFinished
    rw [List.length_eq_zero, List.filter_eq_nil_iff]
    intro e he
    unfold mergeJobEmitsFinished
    rw [hall e he]
    simp
  refine ⟨hacts, hcount, ?_⟩
  rw [hcount]
  unfold cacheWriteTriggered
  have hlen : envs.length ≠ 0 := fun h => hne (List.length_eq_zero.1 h)
  simp [hlen]
  omega

/-- C7 witness: one scheduled job seeing the cancel flag. -/
theorem c7_witness :
    (∀ e ∈ [MergeJobEnv.mk true false false [] []],
      ∀ contribs key, mergeJobActions e contribs key = [])
    ∧ countFinished [MergeJobEnv.mk true false false [] []] = 0
    ∧ cacheWriteTriggered [MergeJobEnv.mk true false false [] []].length
        (countFinished [MergeJobEnv.mk true false false [] []]) = false :=
  c7_cancellation [MergeJobEnv.mk true false false [] []]
    (by intro e he; simp at he; rw [he]) (by simp)

/-- C8: behaviour of the cache-file handling at each failure state.  A
missing file and an `IOError` on read both leave the previous map empty; a
failing write is swallowed and the run completes.  But a present file with
invalid JSON makes `json.load` raise `JSONDecodeError`, which the
`except IOError` clause does not catch — contradicting both the claim and
the code's own log message `"arcFileMerge.json not found or invalid"`. -/
theorem c8_persistence_behaviour :
    loadPreviousMap CacheFileState.missing = Except.ok []
    ∧ loadPreviousMap CacheFileState.ioErr = Except.ok []
    ∧ loadPreviousMap CacheFileState.invalidJson
        = Except.error "json.decoder.JSONDecodeError"
    ∧ writeCacheResult true [("a", ["M"])] = (none, true) :=
  ⟨rfl, rfl, rfl, rfl⟩

/-- C9: every contributor list of the scanned map holds each mod name at
most once: the scanner appends a mod name only after the
`mod_name not in current[relative_path]` check. -/
theorem c9_contributor_nodup (g : List String) (mods : List ModFs)
    (k : ArchiveKey) (v : List ModName)
    (hv : lookupMap (scanRun g mods) k = some v) : List.Nodup v :=
  scanRun_valuesNodup g mods (k, v) (lookupMap_mem hv)

/-- C9 witness: a mod whose walk meets the same key's folder twice is
still recorded only once. -/
theorem c9_witness :
    lookupMap (scanRun ["a.arc"] [ModFs.mk "ModA" true ["a", "a"] []]) "a"
      = some ["ModA"]
    ∧ List.Nodup ["ModA"] :=
  ⟨by decide,
    c9_contributor_nodup ["a.arc"] [ModFs.mk "ModA" true ["a", "a"] []]
      "a" ["ModA"] (by decide)⟩

/-- C10: no contributor name recorded by the scanner contains
`"Merged ARC"` — in particular the output mod `Merged ARC - <profile>`
never contributes — and the map persisted by the finalizer is exactly the
scanned map, so the exclusion carries over to `arcFileMerge.json`. -/
theorem c10_merged_arc_excluded (g : List String) (mods : List ModFs)
    (prev : MergeMap) (k : ArchiveKey) (v : List ModName) (n : ModName)
    (hv : lookupMap (scanRun g mods) k = some v) (hn : n ∈ v) :
    strContains "Merged ARC" n = false
    ∧ (modCleanup prev (scanRun g mods) false).2 = some (scanRun g mods) := by
  refine ⟨scanRun_merged_excluded g mods (k, v) (lookupMap_mem hv) n hn, ?_⟩
  unfold modCleanup
  rw [if_neg (by simp)]

/-- C10 witness: an active mod list containing the merged-output mod
itself; the output key records only the ordinary mod. -/
theorem c10_witness :
    lookupMap
        (scanRun ["a.arc"]
          [ModFs.mk "Merged ARC - Default" true ["a"] [], plainModA]) "a"
      = some ["ModA"]
    ∧ (strContains "Merged ARC" "ModA" = false
        ∧ (modCleanup []
            (scanRun ["a.arc"]
              [ModFs.mk "Merged ARC - Default" true ["a"] [], plainModA])
            false).2
          = some (scanRun ["a.arc"]
              [ModFs.mk "Merged ARC - Default" true ["a"] [], plainModA])) :=
  ⟨by decide,
    c10_merged_arc_excluded ["a.arc"]
      [ModFs.mk "Merged ARC - Default" true ["a"] [], plainModA] []
      "a" ["ModA"] "ModA" (by decide) (by decide)⟩

end ARCMergeSpec
